import Mathlib

/-!
Verification of the workflow execution engine of an API-testing CLI
(variable substitution, matchers, response validation, JSON path
extraction, chain configuration, and the workflow executor).

Rust `String` is modelled as Lean `String`, `HashMap` as finite maps
`String → Option _` (or association lists where iteration occurs),
`Duration` as a count of nanoseconds (`Nat`), and machine integers as
`Nat`/`Int` with explicit range checks where parsing can overflow.
External collaborators (HTTP transport, script interpreter, the
`serde_json` parser, the `regex` crate) are oracles supplied in an
environment record, exactly as the spec declares them external.
-/

/-- The character `\x7b` (left brace), named to keep brace handling explicit. -/
def lbrace : Char := Char.ofNat 123

/-- The character `\x7d` (right brace). -/
def rbrace : Char := Char.ofNat 125

/-- First character of a variable name: `[A-Za-z_]` (from the regex in
`src/env/substitution.rs`). -/
def isNameStart (c : Char) : Bool := c.isAlpha || c == '_'

/-- Subsequent characters of a variable name: `[A-Za-z0-9_]`. -/
def isNameChar (c : Char) : Bool := c.isAlpha || c.isDigit || c == '_'

/-- Attempt to match the regex `\x7b\x7b([A-Za-z_][A-Za-z0-9_]*)\x7d\x7d` at the
head of the character list; on success return the captured name and the rest of
the input after the match. -/
def tryToken (cs : List Char) : Option (List Char × List Char) :=
  match cs with
  | c1 :: c2 :: c3 :: rest =>
    if c1 == lbrace && c2 == lbrace && isNameStart c3 then
      let nm := (c3 :: rest).takeWhile isNameChar
      match (c3 :: rest).dropWhile isNameChar with
      | d1 :: d2 :: tail =>
        if d1 == rbrace && d2 == rbrace then some (nm, tail) else none
      | _ => none
    else none
  | _ => none

/-- The full text matched by `tryToken` for name `nm`. -/
def tokenOf (nm : List Char) : List Char :=
  lbrace :: lbrace :: nm ++ [rbrace, rbrace]

/-- Replacement chosen by `VariableSubstitutor::substitute` for a matched name:
the variable's value when the name is a known key, the matched text verbatim
otherwise. -/
def replacementOf (vars : String → Option String) (nm : List Char) : List Char :=
  match vars (String.mk nm) with
  | some v => v.data
  | none => tokenOf nm

/-- Fuel-indexed core of `Regex::replace_all` specialised to the substitution
pattern: scan left to right, replacing each leftmost match.  Each step consumes
at least one character, so fuel equal to the input length suffices. -/
def substFuel (vars : String → Option String) : Nat → List Char → List Char
  | 0, _ => []
  | _ + 1, [] => []
  | f + 1, c :: rest =>
    match tryToken (c :: rest) with
    | some (nm, tail) => replacementOf vars nm ++ substFuel vars f tail
    | none => c :: substFuel vars f rest

namespace VariableSubstitutor

/-- `VariableSubstitutor::substitute` (src/env/substitution.rs): replace every
occurrence of the `\x7b\x7bNAME\x7d\x7d` pattern whose NAME is a key of `vars`
by its value; unmatched occurrences are emitted verbatim. -/
def substitute (text : String) (vars : String → Option String) : String :=
  String.mk (substFuel vars text.data.length text.data)

/-- Helper for `has_variables`: does the pattern match at any position? -/
def hasTok : List Char → Bool
  | [] => false
  | c :: rest => (tryToken (c :: rest)).isSome || hasTok rest

/-- `VariableSubstitutor::has_variables`: whether the pattern matches anywhere
in the text. -/
def has_variables (text : String) : Bool := hasTok text.data

end VariableSubstitutor

/-- JSON values as handled by `serde_json::Value`.  Numbers are modelled by the
integral (`i64`/`u64`) arm of `serde_json::Number`; floating-point numbers are
outside this development. -/
inductive Json where
  | null
  | bool (b : Bool)
  | num (n : Int)
  | str (s : String)
  | arr (xs : List Json)
  | obj (fields : List (String × Json))

/-- One escaped character of serde's compact JSON string rendering. -/
def escapeChar (c : Char) : List Char :=
  if c == '"' then ['\\', '"']
  else if c == '\\' then ['\\', '\\']
  else if c == '\x08' then ['\\', 'b']
  else if c == '\x0c' then ['\\', 'f']
  else if c == '\n' then ['\\', 'n']
  else if c == '\x0d' then ['\\', 'r']
  else if c == '\t' then ['\\', 't']
  else if c.toNat < 32 then
    let d := Nat.toDigits 16 c.toNat
    '\\' :: 'u' :: (List.replicate (4 - d.length) '0') ++ d
  else [c]

/-- Compact rendering of a JSON string literal, as `serde_json::to_string`. -/
def renderString (s : String) : String :=
  String.mk ('"' :: s.data.foldr (fun c acc => escapeChar c ++ acc) ['"'])

mutual

/-- Compact serialisation of a JSON value (`serde_json`'s `to_string`), used by
the extractors' generic `_ => current.to_string()` arm. -/
def Json.render : Json → String
  | .null => "null"
  | .bool b => cond b "true" "false"
  | .num n => Int.repr n
  | .str s => renderString s
  | .arr xs => "[" ++ Json.renderArr xs ++ "]"
  | .obj fs => String.mk [lbrace] ++ Json.renderObj fs ++ String.mk [rbrace]

/-- Comma-separated rendering of array elements. -/
def Json.renderArr : List Json → String
  | [] => ""
  | [x] => Json.render x
  | x :: y :: rest => Json.render x ++ "," ++ Json.renderArr (y :: rest)

/-- Comma-separated rendering of object fields. -/
def Json.renderObj : List (String × Json) → String
  | [] => ""
  | [(k, v)] => renderString k ++ ":" ++ Json.render v
  | (k, v) :: p :: rest =>
    renderString k ++ ":" ++ Json.render v ++ "," ++ Json.renderObj (p :: rest)

end

/-- Key lookup in a JSON object (`serde_json::Map::get`). -/
def getKey (fields : List (String × Json)) (k : String) : Option Json :=
  (fields.find? (fun p => p.1 == k)).map (·.2)

/-- Rendering of the node reached by path traversal (the final `match` of both
extractors): strings as-is, numbers in decimal, booleans as `true`/`false`,
null as `"null"`, anything else via the compact serialisation. -/
def leafRender : Json → String
  | .str s => s
  | .num n => Int.repr n
  | .bool b => cond b "true" "false"
  | .null => "null"
  | j => j.render

/-- The traversal loop shared by both extractors: descend through object
fields, returning the empty string on a missing key or a non-object node. -/
def extractGo : List String → Json → String
  | [], current => leafRender current
  | part :: rest, current =>
    match current with
    | .obj fields =>
      match getKey fields part with
      | some v => extractGo rest v
      | none => ""
    | _ => ""

/-- `str::trim_start_matches("$.")`: repeatedly strip the prefix `$.`. -/
def trimDollarDot : List Char → List Char
  | '$' :: '.' :: rest => trimDollarDot rest
  | cs => cs

/-- Rust `str::split('.')` on a character list: always at least one part, and
adjacent separators produce empty parts. -/
def splitDot : List Char → List (List Char)
  | [] => [[]]
  | c :: rest =>
    if c == '.' then [] :: splitDot rest
    else
      match splitDot rest with
      | head :: tails => (c :: head) :: tails
      | [] => [[c]]

/-- The parts a path decomposes into: strip leading `$.` then split on dots. -/
def pathParts (path : String) : List String :=
  (splitDot (trimDollarDot path.data)).map String.mk

namespace ResponseValidator

/-- `ResponseValidator::extract_json_path` (src/assertions/validator.rs):
strip `$.`, split the remainder on `.`, walk the object fields, and render the
reached node (empty string when the walk falls off). -/
def extract_json_path (json : Json) (path : String) : String :=
  extractGo (pathParts path) json

end ResponseValidator

namespace WorkflowExecutor

/-- `WorkflowExecutor::extract_json_value` (src/workflow/executor.rs), textually
identical to `ResponseValidator::extract_json_path`. -/
def extract_json_value (json : Json) (path : String) : String :=
  extractGo (pathParts path) json

end WorkflowExecutor

/-- Digits of an unsigned decimal numeral; `none` unless the list is a
non-empty run of ASCII digits. -/
def parseDigits : List Char → Option Nat
  | [] => none
  | cs => cs.foldlM (fun acc c => if c.isDigit then some (acc * 10 + (c.toNat - 48)) else none) 0

/-- Rust `str::parse::<i64>()`: optional sign, then decimal digits, rejecting
anything outside the `i64` range. -/
def rustParseI64 (s : String) : Option Int :=
  match s.data with
  | '+' :: rest =>
    (parseDigits rest).bind fun n => if n ≤ 2 ^ 63 - 1 then some (n : Int) else none
  | '-' :: rest =>
    (parseDigits rest).bind fun n => if n ≤ 2 ^ 63 then some (-(n : Int)) else none
  | cs =>
    (parseDigits cs).bind fun n => if n ≤ 2 ^ 63 - 1 then some (n : Int) else none

/-- Rust `str::parse::<usize>()` (64-bit target): optional `+`, then decimal
digits, rejecting values above `usize::MAX`. -/
def rustParseUsize (s : String) : Option Nat :=
  match s.data with
  | '+' :: rest => (parseDigits rest).bind fun n => if n ≤ 2 ^ 64 - 1 then some n else none
  | '-' :: _ => none
  | cs => (parseDigits cs).bind fun n => if n ≤ 2 ^ 64 - 1 then some n else none

/-- Is `pat` a prefix of `l`? (boolean, over characters). -/
def listPrefix : List Char → List Char → Bool
  | [], _ => true
  | _ :: _, [] => false
  | p :: ps, c :: cs => p == c && listPrefix ps cs

/-- Rust `str::contains(&str)`: substring search. -/
def listInfix (pat : List Char) : List Char → Bool
  | [] => listPrefix pat []
  | c :: cs => listPrefix pat (c :: cs) || listInfix pat cs

/-- Rust `str::starts_with(&str)`. -/
def strStartsWith (s p : String) : Bool := listPrefix p.data s.data

/-- Rust `str::ends_with(&str)`. -/
def strEndsWith (s p : String) : Bool := listPrefix p.data.reverse s.data.reverse

/-- Rust `str::contains(&str)`. -/
def strContains (s p : String) : Bool := listInfix p.data s.data

/-- `MatcherType` (src/assertions/matcher.rs). -/
inductive MatcherType where
  | Equals
  | NotEquals
  | Contains
  | NotContains
  | StartsWith
  | EndsWith
  | Regex
  | LessThan
  | LessThanOrEqual
  | GreaterThan
  | GreaterThanOrEqual
  | IsEmpty
  | IsNotEmpty
  | HasLength
  | IsNull
  | IsNotNull
deriving DecidableEq

/-- `Matcher` (src/assertions/matcher.rs). -/
structure Matcher where
  matcher_type : MatcherType
  expected : String
deriving DecidableEq

namespace Matcher

/-- `Matcher::matches` (the name `matches` is a Lean keyword, hence `doesMatch`).
The `regex` crate is abstracted by `re`, which returns the compiled pattern's
match predicate, or `none` when compilation fails. -/
def doesMatch (re : String → Option (String → Bool)) (m : Matcher) (actual : String) : Bool :=
  match m.matcher_type with
  | .Equals => actual == m.expected
  | .NotEquals => actual != m.expected
  | .Contains => strContains actual m.expected
  | .NotContains => !strContains actual m.expected
  | .StartsWith => strStartsWith actual m.expected
  | .EndsWith => strEndsWith actual m.expected
  | .Regex =>
    match re m.expected with
    | some isMatch => isMatch actual
    | none => false
  | .LessThan =>
    match rustParseI64 actual, rustParseI64 m.expected with
    | some a, some e => a < e
    | _, _ => false
  | .LessThanOrEqual =>
    match rustParseI64 actual, rustParseI64 m.expected with
    | some a, some e => a ≤ e
    | _, _ => false
  | .GreaterThan =>
    match rustParseI64 actual, rustParseI64 m.expected with
    | some a, some e => e < a
    | _, _ => false
  | .GreaterThanOrEqual =>
    match rustParseI64 actual, rustParseI64 m.expected with
    | some a, some e => e ≤ a
    | _, _ => false
  | .IsEmpty => actual.isEmpty
  | .IsNotEmpty => !actual.isEmpty
  | .HasLength =>
    match rustParseUsize m.expected with
    | some expected_len => actual.utf8ByteSize == expected_len
    | none => false
  | .IsNull => actual.isEmpty || actual == "null"
  | .IsNotNull => !actual.isEmpty && actual != "null"

/-- `Matcher::description`. -/
def description (m : Matcher) : String :=
  match m.matcher_type with
  | .Equals => "equals '" ++ m.expected ++ "'"
  | .NotEquals => "not equals '" ++ m.expected ++ "'"
  | .Contains => "contains '" ++ m.expected ++ "'"
  | .NotContains => "does not contain '" ++ m.expected ++ "'"
  | .StartsWith => "starts with '" ++ m.expected ++ "'"
  | .EndsWith => "ends with '" ++ m.expected ++ "'"
  | .Regex => "matches regex '" ++ m.expected ++ "'"
  | .LessThan => "< " ++ m.expected
  | .LessThanOrEqual => "<= " ++ m.expected
  | .GreaterThan => "> " ++ m.expected
  | .GreaterThanOrEqual => ">= " ++ m.expected
  | .IsEmpty => "is empty"
  | .IsNotEmpty => "is not empty"
  | .HasLength => "has length " ++ m.expected
  | .IsNull => "is null"
  | .IsNotNull => "is not null"

end Matcher

/-- `AssertionType` (src/assertions/assertion.rs). -/
inductive AssertionType where
  | StatusCode
  | Header (name : String)
  | Body
  | ResponseTime
  | JsonPath (path : String)
  | Custom (descr : String)
deriving DecidableEq

/-- `Assertion` (src/assertions/assertion.rs). -/
structure Assertion where
  assertion_type : AssertionType
  matcher : Matcher
  description : Option String
  enabled : Bool
deriving DecidableEq

/-- `Assertion::new`: enabled by default, no description. -/
def Assertion.new (t : AssertionType) (m : Matcher) : Assertion :=
  ⟨t, m, none, true⟩

/-- `Assertion::with_enabled`. -/
def Assertion.with_enabled (a : Assertion) (e : Bool) : Assertion :=
  { a with enabled := e }

/-- `AssertionResult` (src/assertions/assertion.rs). -/
structure AssertionResult where
  assertion : Assertion
  passed : Bool
  actual_value : String
  expected_value : String
  error_message : Option String
deriving DecidableEq

/-- `AssertionResult::pass`. -/
def AssertionResult.pass (a : Assertion) (actual expected : String) : AssertionResult :=
  ⟨a, true, actual, expected, none⟩

/-- `AssertionResult::fail`. -/
def AssertionResult.fail (a : Assertion) (actual expected err : String) : AssertionResult :=
  ⟨a, false, actual, expected, some err⟩

/-- `ValidationReport` (src/assertions/validator.rs). -/
structure ValidationReport where
  results : List AssertionResult
  total : Nat
  passed : Nat
  failed : Nat
  success : Bool
deriving DecidableEq

namespace ValidationReport

/-- `ValidationReport::new`. -/
def new : ValidationReport := ⟨[], 0, 0, 0, true⟩

/-- `ValidationReport::add_result`. -/
def add_result (r : ValidationReport) (res : AssertionResult) : ValidationReport :=
  let r :=
    if res.passed then { r with passed := r.passed + 1 }
    else { r with failed := r.failed + 1, success := false }
  { r with total := r.total + 1, results := r.results ++ [res] }

/-- `ValidationReport::summary`. -/
def summary (r : ValidationReport) : String :=
  if r.success then "✓ All " ++ Nat.repr r.total ++ " assertions passed"
  else "✗ " ++ Nat.repr r.failed ++ " of " ++ Nat.repr r.total ++ " assertions failed"

end ValidationReport

/-- `HttpResponse` (src/http/response.rs): status code as the numeric value of
the `StatusCode`, headers as name/value pairs (reqwest's `HeaderMap` stores
lower-cased names and looks up case-insensitively), elapsed time in
nanoseconds. -/
structure HttpResponse where
  status : Nat
  headers : List (String × String)
  body : String
  duration : Nat
deriving DecidableEq

/-- Case-insensitive header lookup (`HeaderMap::get` semantics). -/
def HttpResponse.header_get (r : HttpResponse) (name : String) : Option String :=
  (r.headers.find? (fun p => p.1.toLower == name.toLower)).map (·.2)

namespace ResponseValidator

/-- `ResponseValidator::validate_status_code`. -/
def validate_status_code (re : String → Option (String → Bool))
    (response : HttpResponse) (assertion : Assertion) : AssertionResult :=
  let actual := Nat.repr response.status
  let expected := assertion.matcher.description
  if assertion.matcher.doesMatch re actual then AssertionResult.pass assertion actual expected
  else AssertionResult.fail assertion actual expected "Status code does not match"

/-- `ResponseValidator::validate_header`. -/
def validate_header (re : String → Option (String → Bool)) (response : HttpResponse)
    (header_name : String) (assertion : Assertion) : AssertionResult :=
  let expected := assertion.matcher.description
  let actual := (response.header_get header_name).getD ""
  if assertion.matcher.doesMatch re actual then AssertionResult.pass assertion actual expected
  else
    AssertionResult.fail assertion actual expected
      ("Header '" ++ header_name ++ "' does not match")

/-- `ResponseValidator::validate_body`. -/
def validate_body (re : String → Option (String → Bool))
    (response : HttpResponse) (assertion : Assertion) : AssertionResult :=
  let actual := response.body
  let expected := assertion.matcher.description
  if assertion.matcher.doesMatch re actual then AssertionResult.pass assertion actual expected
  else AssertionResult.fail assertion actual expected "Body does not match"

/-- `ResponseValidator::validate_response_time` (`Duration::as_millis`). -/
def validate_response_time (re : String → Option (String → Bool))
    (response : HttpResponse) (assertion : Assertion) : AssertionResult :=
  let actual := Nat.repr (response.duration / 1000000)
  let expected := assertion.matcher.description
  if assertion.matcher.doesMatch re actual then
    AssertionResult.pass assertion (actual ++ "ms") expected
  else
    AssertionResult.fail assertion (actual ++ "ms") expected "Response time does not match"

/-- `ResponseValidator::validate_json_path`.  `parse` is the `serde_json`
oracle: `none` models a body `serde_json::from_str` rejects, in which case the
assertion fails with a parse-failure message. -/
def validate_json_path (re : String → Option (String → Bool)) (parse : String → Option Json)
    (response : HttpResponse) (path : String) (assertion : Assertion) : AssertionResult :=
  let expected := assertion.matcher.description
  match parse response.body with
  | some json =>
    let actual := extract_json_path json path
    if assertion.matcher.doesMatch re actual then AssertionResult.pass assertion actual expected
    else
      AssertionResult.fail assertion actual expected
        ("JSON path '" ++ path ++ "' does not match")
  | none =>
    AssertionResult.fail assertion response.body expected
      "Failed to parse response as JSON"

/-- `ResponseValidator::validate_custom`: always passes. -/
def validate_custom (descr : String) (assertion : Assertion) : AssertionResult :=
  AssertionResult.pass assertion "custom" descr

/-- `ResponseValidator::validate_assertion`: dispatch on the assertion target. -/
def validate_assertion (re : String → Option (String → Bool)) (parse : String → Option Json)
    (response : HttpResponse) (assertion : Assertion) : AssertionResult :=
  match assertion.assertion_type with
  | .StatusCode => validate_status_code re response assertion
  | .Header name => validate_header re response name assertion
  | .Body => validate_body re response assertion
  | .ResponseTime => validate_response_time re response assertion
  | .JsonPath path => validate_json_path re parse response path assertion
  | .Custom descr => validate_custom descr assertion

/-- The `for assertion in assertions` loop of `ResponseValidator::validate`:
skip disabled assertions entirely, add every other assertion's result. -/
def validate_loop (re : String → Option (String → Bool)) (parse : String → Option Json)
    (response : HttpResponse) : List Assertion → ValidationReport → ValidationReport
  | [], report => report
  | assertion :: rest, report =>
    if !assertion.enabled then validate_loop re parse response rest report
    else validate_loop re parse response rest
      (report.add_result (validate_assertion re parse response assertion))

/-- `ResponseValidator::validate`: run the enabled assertions in order,
skipping disabled ones entirely, and accumulate the report. -/
def validate (re : String → Option (String → Bool)) (parse : String → Option Json)
    (response : HttpResponse) (assertions : List Assertion) : ValidationReport :=
  validate_loop re parse response assertions ValidationReport.new

end ResponseValidator

/-- `validate_response` (src/assertions/mod.rs): wraps the validator in an
always-`Ok` result. -/
def validate_response (re : String → Option (String → Bool)) (parse : String → Option Json)
    (response : HttpResponse) (assertions : List Assertion) : Except String ValidationReport :=
  .ok (ResponseValidator.validate re parse response assertions)

/-- `HttpMethod` (src/http/request.rs). -/
inductive HttpMethod where
  | Get
  | Post
  | Put
  | Delete
  | Patch
  | Head
  | Options
deriving DecidableEq

/-- `RequestBuilder` (src/http/request.rs), restricted to the fields the
workflow executor populates (`form_data` and `auth` keep their defaults in the
executor and carry no behaviour here). -/
structure RequestBuilder where
  method : HttpMethod
  url : String
  headers : List String
  query_params : List String
  body : Option String
deriving DecidableEq

namespace RequestBuilder

/-- `RequestBuilder::new`. -/
def new (method : HttpMethod) (url : String) : RequestBuilder :=
  ⟨method, url, [], [], none⟩

/-- `RequestBuilder::header`. -/
def header (r : RequestBuilder) (h : String) : RequestBuilder :=
  { r with headers := r.headers ++ [h] }

/-- `RequestBuilder::query`. -/
def query (r : RequestBuilder) (p : String) : RequestBuilder :=
  { r with query_params := r.query_params ++ [p] }

/-- `RequestBuilder::body` (the setter). -/
def set_body (r : RequestBuilder) (b : String) : RequestBuilder :=
  { r with body := some b }

end RequestBuilder

/-- `ScriptType` (src/scripts/types.rs). -/
inductive ScriptType where
  | PreRequest
  | PostResponse
deriving DecidableEq

/-- `Script` (src/scripts/types.rs). -/
structure Script where
  script_type : ScriptType
  code : String
  name : Option String
  enabled : Bool
deriving DecidableEq

/-- `ScriptVariable` (src/scripts/context.rs). -/
structure ScriptVariable where
  value : String
  is_secret : Bool
deriving DecidableEq

/-- `ScriptVariable::new`: a non-secret variable. -/
def ScriptVariable.new (value : String) : ScriptVariable := ⟨value, false⟩

/-- `ScriptContext` (src/scripts/context.rs): the variable pool, the request
scratch map, the response scratch map, and the console buffer are four
separate containers.  The variable pool is the source's `variables` field
(`variables` is a reserved token in Lean, hence `vars`). -/
structure ScriptContext where
  vars : String → Option ScriptVariable
  request_data : String → Option String
  response_data : String → Option String
  console_output : List String

namespace ScriptContext

/-- `ScriptContext::new`. -/
def new : ScriptContext := ⟨fun _ => none, fun _ => none, fun _ => none, []⟩

/-- `ScriptContext::set_variable`: insert a non-secret variable (last write
wins). -/
def set_variable (ctx : ScriptContext) (name value : String) : ScriptContext :=
  { ctx with
    vars := fun k => if k = name then some (ScriptVariable.new value) else ctx.vars k }

/-- `ScriptContext::set_response_data`. -/
def set_response_data (ctx : ScriptContext) (key value : String) : ScriptContext :=
  { ctx with
    response_data := fun k => if k = key then some value else ctx.response_data k }

end ScriptContext

/-- `WorkflowStep` (src/workflow/step.rs).  `extract_variables` is a
`HashMap`; it is modelled as the association list the executor's `for` loop
iterates over. -/
structure WorkflowStep where
  name : String
  method : HttpMethod
  url : String
  headers : List String
  query_params : List String
  body : Option String
  pre_request_script : Option Script
  post_response_script : Option Script
  assertions : List Assertion
  continue_on_error : Bool
  timeout : Option Nat
  extract_variables : List (String × String)

/-- `WorkflowStep::new`. -/
def WorkflowStep.new (name : String) (method : HttpMethod) (url : String) : WorkflowStep :=
  ⟨name, method, url, [], [], none, none, none, [], false, none, []⟩

/-- `ChainConfig` (src/workflow/chain.rs); durations in nanoseconds. -/
structure ChainConfig where
  stop_on_failure : Bool
  delay_between_requests : Option Nat
  max_duration : Option Nat
  iterations : Nat
deriving DecidableEq

/-- `ChainConfig::new`: the in-code defaults. -/
def ChainConfig.new : ChainConfig := ⟨true, none, none, 1⟩

/-- `RequestChain` (src/workflow/chain.rs). -/
structure RequestChain where
  name : String
  description : Option String
  steps : List WorkflowStep
  config : ChainConfig

/-- `StepResult` (src/workflow/step.rs). -/
structure StepResult where
  step_name : String
  success : Bool
  response : Option HttpResponse
  error : Option String
  extracted_variables : List (String × String)
  duration : Nat
deriving DecidableEq

/-- `StepResult::success` the constructor (named `mk_success` because `success`
is the field name). -/
def StepResult.mk_success (step_name : String) (response : HttpResponse)
    (extracted_variables : List (String × String)) (duration : Nat) : StepResult :=
  ⟨step_name, true, some response, none, extracted_variables, duration⟩

/-- `StepResult::failure` the constructor. -/
def StepResult.mk_failure (step_name error : String) (duration : Nat) : StepResult :=
  ⟨step_name, false, none, some error, [], duration⟩

/-- `ExecutionResult` (src/workflow/executor.rs); `final_variables` is a
`HashMap String String`, modelled as a finite map. -/
structure ExecutionResult where
  chain_name : String
  step_results : List StepResult
  success : Bool
  total_duration : Nat
  final_variables : String → Option String

namespace ExecutionResult

/-- `ExecutionResult::new`. -/
def new (chain_name : String) : ExecutionResult :=
  ⟨chain_name, [], true, 0, fun _ => none⟩

/-- `ExecutionResult::add_step_result`: clear `success` on a failed step, add
the step's duration, push the result. -/
def add_step_result (r : ExecutionResult) (result : StepResult) : ExecutionResult :=
  { r with
    success := if !result.success then false else r.success
    total_duration := r.total_duration + result.duration
    step_results := r.step_results ++ [result] }

end ExecutionResult

/-- The external capabilities the executor consumes, indexed by a step-attempt
counter `t` so that distinct attempts may observe distinct responses, script
effects and elapsed times: the script interpreter (returning the mutated
context and an optional error), the HTTP transport, the `serde_json` parser,
the `regex` compiler, and the per-attempt `Instant::elapsed` reading. -/
structure Env where
  runScript : Nat → Script → ScriptContext → ScriptContext × Option String
  http : Nat → RequestBuilder → Except String HttpResponse
  parse : String → Option Json
  regex : String → Option (String → Bool)
  elapsed : Nat → Nat

/-- `execute_pre_request` (src/scripts/mod.rs): a script of the wrong type is
a no-op; otherwise the engine runs it against the context. -/
def execute_pre_request (env : Env) (t : Nat) (script : Script) (ctx : ScriptContext) :
    ScriptContext × Option String :=
  if script.script_type ≠ ScriptType.PreRequest then (ctx, none)
  else env.runScript t script ctx

/-- `execute_post_response` (src/scripts/mod.rs). -/
def execute_post_response (env : Env) (t : Nat) (script : Script) (ctx : ScriptContext) :
    ScriptContext × Option String :=
  if script.script_type ≠ ScriptType.PostResponse then (ctx, none)
  else env.runScript t script ctx

/-- Insert into a `HashMap<String, String>` modelled as an association list:
replace the existing entry if the key is present, append otherwise. -/
def insertKV (m : List (String × String)) (k v : String) : List (String × String) :=
  if m.any (fun p => p.1 == k) then m.map (fun p => if p.1 == k then (k, v) else p)
  else m ++ [(k, v)]

namespace WorkflowExecutor

/-- The variable-extraction `for` loop at the end of
`WorkflowExecutor::execute_step`: for each `(name, json_path)` pair, if the
response body parses as JSON the extracted value is written to the context and
recorded; if the body does not parse, the pair is skipped entirely. -/
def extractLoop (parse : String → Option Json) (body : String) :
    List (String × String) → ScriptContext × List (String × String) →
    ScriptContext × List (String × String)
  | [], acc => acc
  | (var_name, json_path) :: rest, (ctx, extracted) =>
    match parse body with
    | some json =>
      let value := extract_json_value json json_path
      extractLoop parse body rest (ctx.set_variable var_name value, insertKV extracted var_name value)
    | none => extractLoop parse body rest (ctx, extracted)

/-- The tail of `WorkflowExecutor::execute_step` after assertions have passed
(or were absent): run variable extraction and build the successful
`StepResult`. -/
def finish_step (env : Env) (t : Nat) (step : WorkflowStep) (response : HttpResponse)
    (ctx : ScriptContext) : Except String StepResult × ScriptContext :=
  let (ctx, extracted) := extractLoop env.parse response.body step.extract_variables (ctx, [])
  (.ok (StepResult.mk_success step.name response extracted (env.elapsed t)), ctx)

/-- `WorkflowExecutor::execute_step` (src/workflow/executor.rs): pre-script,
substitution and request building, transport, response scratch writes,
post-script, assertion validation, variable extraction.  Script and transport
errors surface as `Except.error` (the `?` operator); an assertion failure is
an `Except.ok` carrying a failed `StepResult`. -/
def execute_step (env : Env) (t : Nat) (step : WorkflowStep) (ctx : ScriptContext) :
    Except String StepResult × ScriptContext :=
  let (ctx, preErr) :=
    match step.pre_request_script with
    | some script => execute_pre_request env t script ctx
    | none => (ctx, none)
  match preErr with
  | some e => (.error e, ctx)
  | none =>
    let vars := fun k => (ctx.vars k).map ScriptVariable.value
    let url := VariableSubstitutor.substitute step.url vars
    let request := RequestBuilder.new step.method url
    let request := step.headers.foldl
      (fun r h => r.header (VariableSubstitutor.substitute h vars)) request
    let request := step.query_params.foldl
      (fun r p => r.query (VariableSubstitutor.substitute p vars)) request
    let request :=
      match step.body with
      | some b => request.set_body (VariableSubstitutor.substitute b vars)
      | none => request
    match env.http t request with
    | .error e => (.error e, ctx)
    | .ok response =>
      let ctx := ctx.set_response_data "status" (Nat.repr response.status)
      let ctx := ctx.set_response_data "body" response.body
      let (ctx, postErr) :=
        match step.post_response_script with
        | some script => execute_post_response env t script ctx
        | none => (ctx, none)
      match postErr with
      | some e => (.error e, ctx)
      | none =>
        if step.assertions.isEmpty then finish_step env t step response ctx
        else
          match validate_response env.regex env.parse response step.assertions with
          | .error e => (.error e, ctx)
          | .ok validation_report =>
            if !validation_report.success then
              (.ok (StepResult.mk_failure step.name
                ("Assertions failed: " ++ validation_report.summary) (env.elapsed t)), ctx)
            else finish_step env t step response ctx

/-- State carried through the executor's loops: the accumulating result, the
script context, and the step-attempt counter. -/
structure ExecSt where
  res : ExecutionResult
  ctx : ScriptContext
  tick : Nat

/-- The inner `for step in &chain.steps` loop of `WorkflowExecutor::execute`:
run each step, record its result, and break when a failed step meets the
stop-on-failure policy. -/
def stepLoop (env : Env) (cfg : ChainConfig) :
    List WorkflowStep → ExecSt → ExecSt
  | [], st => st
  | step :: rest, st =>
    match execute_step env st.tick step st.ctx with
    | (.ok step_result, ctx) =>
      let res := st.res.add_step_result step_result
      if !step_result.success && cfg.stop_on_failure && !step.continue_on_error then
        ⟨res, ctx, st.tick + 1⟩
      else stepLoop env cfg rest ⟨res, ctx, st.tick + 1⟩
    | (.error e, ctx) =>
      let step_result := StepResult.mk_failure step.name e (env.elapsed st.tick)
      let res := st.res.add_step_result step_result
      if cfg.stop_on_failure && !step.continue_on_error then ⟨res, ctx, st.tick + 1⟩
      else stepLoop env cfg rest ⟨res, ctx, st.tick + 1⟩

/-- The outer `for iteration in 0..iterations` loop of
`WorkflowExecutor::execute`, by remaining iteration count.  The inter-iteration
`thread::sleep` suspends without touching any state, so it leaves no trace
here; after each iteration the loop breaks when `total_duration` has reached
`max_duration`. -/
def iterLoop (env : Env) (chain : RequestChain) : Nat → ExecSt → ExecSt
  | 0, st => st
  | k + 1, st =>
    let st := stepLoop env chain.config chain.steps st
    match chain.config.max_duration with
    | some max_duration =>
      if st.res.total_duration ≥ max_duration then st else iterLoop env chain k st
    | none => iterLoop env chain k st

/-- `WorkflowExecutor::execute` (src/workflow/executor.rs): run the configured
iterations and snapshot the context's variable pool into `final_variables`.
The source returns `Ok(result)` unconditionally, so the `Result` wrapper is
dropped. -/
def execute (env : Env) (chain : RequestChain) : ExecutionResult :=
  let st := iterLoop env chain chain.config.iterations
    ⟨ExecutionResult.new chain.name, ScriptContext.new, 0⟩
  { st.res with final_variables := fun k => (st.ctx.vars k).map ScriptVariable.value }

end WorkflowExecutor

/-- Deserialisation of a JSON value as a `bool` (serde semantics). -/
def decodeBool : Json → Except String Bool
  | .bool b => .ok b
  | _ => .error "invalid type: expected a boolean"

/-- Deserialisation of a JSON number as a `u64` (serde semantics: unsigned,
within range). -/
def decodeU64 : Json → Except String Nat
  | .num n => if 0 ≤ n ∧ n < 2 ^ 64 then .ok n.toNat else .error "invalid value: out of range for u64"
  | _ => .error "invalid type: expected an integer"

/-- Deserialisation of a JSON number as a `u32`. -/
def decodeU32 : Json → Except String Nat
  | .num n => if 0 ≤ n ∧ n < 2 ^ 32 then .ok n.toNat else .error "invalid value: out of range for u32"
  | _ => .error "invalid type: expected an integer"

/-- Field collector for serde's `Deserialize` impl of `std::time::Duration`
(`\x7bsecs, nanos\x7d`): both fields required, duplicates and unknown fields
rejected. -/
def durationFields : List (String × Json) → Option Nat × Option Nat →
    Except String (Option Nat × Option Nat)
  | [], acc => .ok acc
  | (k, v) :: rest, (secs, nanos) =>
    if k == "secs" then
      match secs with
      | some _ => .error "duplicate field `secs`"
      | none => (decodeU64 v).bind fun s => durationFields rest (some s, nanos)
    else if k == "nanos" then
      match nanos with
      | some _ => .error "duplicate field `nanos`"
      | none => (decodeU32 v).bind fun n => durationFields rest (secs, some n)
    else .error ("unknown field `" ++ k ++ "`")

/-- serde's `Deserialize` for `std::time::Duration`, yielding nanoseconds. -/
def decodeDuration (j : Json) : Except String Nat :=
  match j with
  | .obj fields =>
    (durationFields fields (none, none)).bind fun acc =>
      match acc with
      | (some secs, some nanos) => .ok (secs * 1000000000 + nanos)
      | (none, _) => .error "missing field `secs`"
      | (_, none) => .error "missing field `nanos`"
  | _ => .error "invalid type: expected struct Duration"

/-- serde's `Deserialize` for `Option<Duration>`: `null` is `None`, any other
value must be a valid `Duration`. -/
def decodeOptDuration : Json → Except String (Option Nat)
  | .null => .ok none
  | j => (decodeDuration j).map some

namespace ChainConfig

/-- Field collector of the derived `Deserialize` impl for `ChainConfig`
(src/workflow/chain.rs has no `serde` attributes): visit each input field in
order, reject duplicates of known fields, ignore unknown fields (serde's
default), and record decoded values. -/
def collectFields : List (String × Json) →
    Option Bool × Option (Option Nat) × Option (Option Nat) × Option Nat →
    Except String (Option Bool × Option (Option Nat) × Option (Option Nat) × Option Nat)
  | [], acc => .ok acc
  | (k, v) :: rest, (sof, delay, maxd, iters) =>
    if k == "stop_on_failure" then
      match sof with
      | some _ => .error "duplicate field `stop_on_failure`"
      | none => (decodeBool v).bind fun b => collectFields rest (some b, delay, maxd, iters)
    else if k == "delay_between_requests" then
      match delay with
      | some _ => .error "duplicate field `delay_between_requests`"
      | none => (decodeOptDuration v).bind fun d => collectFields rest (sof, some d, maxd, iters)
    else if k == "max_duration" then
      match maxd with
      | some _ => .error "duplicate field `max_duration`"
      | none => (decodeOptDuration v).bind fun d => collectFields rest (sof, delay, some d, iters)
    else if k == "iterations" then
      match iters with
      | some _ => .error "duplicate field `iterations`"
      | none => (decodeU64 v).bind fun n => collectFields rest (sof, delay, maxd, some n)
    else collectFields rest (sof, delay, maxd, iters)

/-- Reading a persisted `ChainConfig` from JSON: the derived `Deserialize`
impl.  `bool` and `usize` fields have no `#[serde(default)]`, so their absence
is a `missing field` error; the two `Option` fields default to `None` when
absent; unknown fields are ignored. -/
def deserialize (j : Json) : Except String ChainConfig :=
  match j with
  | .obj fields =>
    (collectFields fields (none, none, none, none)).bind fun acc =>
      match acc with
      | (none, _, _, _) => .error "missing field `stop_on_failure`"
      | (some sof, delay, maxd, iters) =>
        match iters with
        | none => .error "missing field `iterations`"
        | some iters => .ok ⟨sof, delay.getD none, maxd.getD none, iters⟩
  | _ => .error "invalid type: expected struct ChainConfig"

end ChainConfig

/-! Substitution lemmas. -/

/-- The dropped part of a list is never longer than the list. -/
theorem length_dropWhile_le (p : Char → Bool) (l : List Char) :
    (l.dropWhile p).length ≤ l.length := by
  induction l with
  | nil => simp
  | cons c rest ih =>
    by_cases h : p c
    · rw [List.dropWhile_cons_of_pos h]
      exact Nat.le_succ_of_le ih
    · rw [List.dropWhile_cons_of_neg h]

/-- A successful token match strictly shortens the input. -/
theorem tryToken_some_length {cs nm tail : List Char}
    (h : tryToken cs = some (nm, tail)) : tail.length < cs.length := by
  match cs with
  | [] => simp [tryToken] at h
  | [c1] => simp [tryToken] at h
  | [c1, c2] => simp [tryToken] at h
  | c1 :: c2 :: c3 :: rest =>
    rw [tryToken] at h
    split at h
    · rcases hd : (c3 :: rest).dropWhile isNameChar with _ | ⟨d1, _ | ⟨d2, tail'⟩⟩ <;>
        rw [hd] at h <;> dsimp only at h
      · exact absurd h (by simp)
      · exact absurd h (by simp)
      · split at h
        · have hlen : tail'.length + 2 ≤ rest.length + 1 := by
            have := length_dropWhile_le isNameChar (c3 :: rest)
            rw [hd] at this
            simpa using this
          simp only [Option.some.injEq, Prod.mk.injEq] at h
          obtain ⟨-, h2⟩ := h
          subst h2
          simp only [List.length_cons]
          omega
        · exact absurd h (by simp)
    · exact absurd h (by simp)

/-- `substFuel` does not depend on the fuel once the fuel covers the input
length. -/
theorem substFuel_fuel_irrel (vars : String → Option String) :
    ∀ n, ∀ cs : List Char, cs.length ≤ n → ∀ f g, cs.length ≤ f → cs.length ≤ g →
      substFuel vars f cs = substFuel vars g cs := by
  intro n
  induction n with
  | zero =>
    intro cs hcs f g hf hg
    have : cs = [] := List.length_eq_zero.mp (Nat.le_zero.mp hcs)
    subst this
    cases f <;> cases g <;> rfl
  | succ n ih =>
    intro cs hcs f g hf hg
    match cs with
    | [] => cases f <;> cases g <;> rfl
    | c :: rest =>
      match f, g with
      | f + 1, g + 1 =>
        rw [substFuel, substFuel]
        cases htok : tryToken (c :: rest) with
        | some pr =>
          obtain ⟨nm, tail⟩ := pr
          dsimp only
          have hlt := tryToken_some_length htok
          simp only [List.length_cons] at hcs hf hg hlt
          have h1 : tail.length ≤ n := by omega
          have h2 : tail.length ≤ f := by omega
          have h3 : tail.length ≤ g := by omega
          rw [ih tail h1 f g h2 h3]
        | none =>
          dsimp only
          simp only [List.length_cons] at hcs hf hg
          rw [ih rest (by omega) f g (by omega) (by omega)]

/-- `substFuel` at exactly enough fuel: the function every lemma below is
stated about. -/
def substL (vars : String → Option String) (cs : List Char) : List Char :=
  substFuel vars cs.length cs

/-- `substitute` unfolded to `substL`. -/
theorem substitute_eq_substL (text : String) (vars : String → Option String) :
    VariableSubstitutor.substitute text vars = String.mk (substL vars text.data) := rfl

/-- Scanning an empty input yields an empty output. -/
theorem substL_nil (vars : String → Option String) : substL vars [] = [] := rfl

/-- When no token matches at the head, the head character is copied. -/
theorem substL_cons_noToken (vars : String → Option String) {c : Char} {rest : List Char}
    (h : tryToken (c :: rest) = none) :
    substL vars (c :: rest) = c :: substL vars rest := by
  show substFuel vars (rest.length + 1) (c :: rest) = c :: substFuel vars rest.length rest
  rw [substFuel, h]

/-- When a token matches at the head, its replacement is emitted and scanning
resumes after the match. -/
theorem substL_token (vars : String → Option String) {cs nm tail : List Char}
    (h : tryToken cs = some (nm, tail)) :
    substL vars cs = replacementOf vars nm ++ substL vars tail := by
  match cs with
  | [] => simp [tryToken] at h
  | c :: rest =>
    show substFuel vars (rest.length + 1) (c :: rest) = _
    rw [substFuel, h]
    dsimp only
    have hlt := tryToken_some_length h
    simp only [List.length_cons] at hlt
    rw [substFuel_fuel_irrel vars rest.length tail (by omega) rest.length tail.length
      (by omega) (le_refl _)]
    rfl

/-- No token can match where the head character is not a left brace. -/
theorem tryToken_head_ne {c : Char} (l : List Char) (h : ¬ c = lbrace) :
    tryToken (c :: l) = none := by
  match l with
  | [] => rfl
  | [c2] => rfl
  | c2 :: c3 :: rest =>
    rw [tryToken]
    have : (c == lbrace) = false := by simpa using h
    simp [this]

/-- A scan copies any brace-free prefix unchanged. -/
theorem substL_append_free (vars : String → Option String) (seg rest : List Char)
    (h : ∀ c ∈ seg, ¬ c = lbrace) :
    substL vars (seg ++ rest) = seg ++ substL vars rest := by
  induction seg with
  | nil => rfl
  | cons c seg ih =>
    have hc : ¬ c = lbrace := h c (by simp)
    rw [List.cons_append, substL_cons_noToken vars (tryToken_head_ne _ hc),
      ih (fun d hd => h d (by simp [hd]))]
    simp

/-- Splitting a run of characters satisfying `p` followed by a character
refuting `p`. -/
theorem takeWhile_dropWhile_append {p : Char → Bool} (l1 l2 : List Char) (d : Char)
    (h1 : ∀ c ∈ l1, p c = true) (h2 : p d = false) :
    (l1 ++ d :: l2).takeWhile p = l1 ∧ (l1 ++ d :: l2).dropWhile p = d :: l2 := by
  induction l1 with
  | nil =>
    constructor
    · rw [List.nil_append, List.takeWhile_cons_of_neg (by simp [h2])]
    · rw [List.nil_append, List.dropWhile_cons_of_neg (by simp [h2])]
  | cons c l1 ih =>
    have hc : p c = true := h1 c (by simp)
    obtain ⟨iht, ihd⟩ := ih (fun e he => h1 e (by simp [he]))
    constructor
    · rw [List.cons_append, List.takeWhile_cons_of_pos hc, iht]
    · rw [List.cons_append, List.dropWhile_cons_of_pos hc, ihd]

/-- A name matching `[A-Za-z_][A-Za-z0-9_]*`. -/
def validName : List Char → Bool
  | [] => false
  | c :: rest => isNameStart c && rest.all isNameChar

/-- Name-start characters are name characters. -/
theorem isNameChar_of_start {c : Char} (h : isNameStart c = true) : isNameChar c = true := by
  rcases Bool.or_eq_true_iff.mp h with h' | h' <;> simp [isNameChar, h']

/-- A token spelled out at the head of the input is matched exactly, leaving
the remainder untouched. -/
theorem tryToken_tokenOf {nm : List Char} (h : validName nm = true) (rest : List Char) :
    tryToken (tokenOf nm ++ rest) = some (nm, rest) := by
  match nm with
  | [] => simp [validName] at h
  | c :: nmrest =>
    rw [validName, Bool.and_eq_true] at h
    obtain ⟨hstart, hall⟩ := h
    have hshape : tokenOf (c :: nmrest) ++ rest
        = lbrace :: lbrace :: c :: (nmrest ++ rbrace :: rbrace :: rest) := by
      simp [tokenOf]
    rw [hshape, tryToken]
    have hcond : (lbrace == lbrace && lbrace == lbrace && isNameStart c) = true := by
      simp [hstart]
    rw [if_pos hcond]
    have hrb : isNameChar rbrace = false := by decide
    have hsplit := takeWhile_dropWhile_append (p := isNameChar) (c :: nmrest)
      (rbrace :: rest) rbrace
      (by
        intro e he
        rcases List.mem_cons.mp he with h' | h'
        · subst h'; exact isNameChar_of_start hstart
        · exact List.all_eq_true.mp hall e h')
      hrb
    have hshape2 : c :: (nmrest ++ rbrace :: rbrace :: rest)
        = (c :: nmrest) ++ rbrace :: (rbrace :: rest) := by simp
    rw [hshape2, hsplit.1, hsplit.2]
    simp

/-- The concrete text described by an alternation of brace-free segments and
`\x7b\x7bNAME\x7d\x7d` tokens, ending in a brace-free tail. -/
def joinSegs : List (List Char × List Char) → List Char → List Char
  | [], last => last
  | (seg, nm) :: rest, last => seg ++ tokenOf nm ++ joinSegs rest last

/-- The text `substitute` is specified to produce for such an alternation:
each segment verbatim, each token replaced by its value when the name is
known and kept verbatim otherwise. -/
def renderSegs (vars : String → Option String) :
    List (List Char × List Char) → List Char → List Char
  | [], last => last
  | (seg, nm) :: rest, last => seg ++ replacementOf vars nm ++ renderSegs vars rest last

/-- The scan maps an alternation of brace-free segments and tokens to its
rendering. -/
theorem substL_joinSegs (vars : String → Option String)
    (pairs : List (List Char × List Char)) (last : List Char)
    (hp : ∀ p ∈ pairs, (∀ c ∈ p.1, ¬ c = lbrace) ∧ validName p.2 = true)
    (hl : ∀ c ∈ last, ¬ c = lbrace) :
    substL vars (joinSegs pairs last) = renderSegs vars pairs last := by
  induction pairs with
  | nil =>
    have h0 := substL_append_free vars last [] hl
    rw [List.append_nil] at h0
    rw [joinSegs, renderSegs, h0, substL_nil, List.append_nil]
  | cons p pairs ih =>
    obtain ⟨seg, nm⟩ := p
    obtain ⟨hseg, hnm⟩ := hp (seg, nm) (by simp)
    rw [joinSegs, renderSegs, List.append_assoc,
      substL_append_free vars seg _ hseg,
      substL_token vars (tryToken_tokenOf hnm (joinSegs pairs last)),
      ih (fun q hq => hp q (by simp [hq]))]
    simp

/-- Token-free inputs are fixed points of the scan. -/
theorem substL_id_of_no_token (vars : String → Option String) :
    ∀ cs : List Char, VariableSubstitutor.hasTok cs = false → substL vars cs = cs := by
  intro cs
  induction cs with
  | nil => intro _; rfl
  | cons c rest ih =>
    intro h
    rw [VariableSubstitutor.hasTok, Bool.or_eq_false_iff] at h
    have hnone : tryToken (c :: rest) = none := by
      cases htok : tryToken (c :: rest) with
      | none => rfl
      | some pr => rw [htok] at h; simp at h
    rw [substL_cons_noToken vars hnone, ih h.2]

/-! JSON path extraction lemmas. -/

/-- Spec-side description of traversal: resolve a field path to the node it
reaches, if any.  Compared below with the extractors' loop. -/
def Json.resolve : List String → Json → Option Json
  | [], j => some j
  | part :: rest, .obj fields =>
    match getKey fields part with
    | some v => Json.resolve rest v
    | none => none
  | _ :: _, _ => none

/-- The extractors' loop returns the rendering of the resolved node, and the
empty string exactly when resolution fails (missing key or non-object node). -/
theorem extractGo_resolve : ∀ (parts : List String) (json : Json),
    extractGo parts json =
      match Json.resolve parts json with
      | some leaf => leafRender leaf
      | none => "" := by
  intro parts
  induction parts with
  | nil => intro json; rfl
  | cons part rest ih =>
    intro json
    cases json with
    | obj fields =>
      rw [extractGo, Json.resolve]
      cases getKey fields part with
      | some v => exact ih v
      | none => rfl
    | null => rfl
    | bool b => rfl
    | num n => rfl
    | str s => rfl
    | arr xs => rfl

/-- Does the input start with the two characters `$.`? -/
def headDollarDot : List Char → Bool
  | a :: b :: _ => a == '$' && b == '.'
  | _ => false

/-- `trim_start_matches("$.")` is the identity when the input does not start
with `$.`. -/
theorem trimDollarDot_eq_self {cs : List Char} (h : headDollarDot cs = false) :
    trimDollarDot cs = cs := by
  rw [trimDollarDot.eq_def]
  split
  · simp [headDollarDot] at h
  · rfl

/-- Splitting a dot-free input yields a single part. -/
theorem splitDot_no_dot : ∀ (f : List Char), (∀ c ∈ f, ¬ c = '.') →
    splitDot f = [f] := by
  intro f
  induction f with
  | nil => intro _; rfl
  | cons c rest ih =>
    intro h
    have hc : (c == '.') = false := by simpa using h c (by simp)
    rw [splitDot, if_neg (by simp [hc]), ih (fun d hd => h d (by simp [hd]))]

/-- Splitting after a dot-free segment peels it off at the first dot. -/
theorem splitDot_append_dot : ∀ (f rest : List Char), (∀ c ∈ f, ¬ c = '.') →
    splitDot (f ++ '.' :: rest) = f :: splitDot rest := by
  intro f
  induction f with
  | nil =>
    intro rest _
    rw [List.nil_append, splitDot, if_pos (by simp)]
  | cons c f ih =>
    intro rest h
    have hc : (c == '.') = false := by simpa using h c (by simp)
    rw [List.cons_append, splitDot, if_neg (by simp [hc]),
      ih rest (fun d hd => h d (by simp [hd]))]

/-- The text of a path body: field names joined by dots. -/
def joinDots : List String → List Char
  | [] => []
  | [f] => f.data
  | f :: g :: rest => f.data ++ '.' :: joinDots (g :: rest)

/-- Splitting a joined path body recovers the field names (when the names are
dot-free). -/
theorem splitDot_joinDots : ∀ (fields : List String), fields ≠ [] →
    (∀ f ∈ fields, ∀ c ∈ f.data, ¬ c = '.') →
    splitDot (joinDots fields) = fields.map String.data := by
  intro fields
  induction fields with
  | nil => intro h; exact absurd rfl h
  | cons f rest ih =>
    intro _ h
    cases rest with
    | nil =>
      rw [joinDots, splitDot_no_dot f.data (h f (by simp))]
      rfl
    | cons g rest' =>
      rw [joinDots, splitDot_append_dot f.data _ (h f (by simp)),
        ih (by simp) (fun e he => h e (by simp [he]))]
      rfl

/-! Claims about substitution, extraction and matching. -/

/-- Claim C4: `substitute` replaces each occurrence of a name token whose NAME
is a key of `vars` with its value, leaves each occurrence whose NAME is absent
verbatim, and is the identity on texts without tokens.  Stated as: (1) texts
the pattern never matches are returned unchanged, (2) any alternation of
brace-free segments and `\x7b\x7bNAME\x7d\x7d` tokens is mapped to the same
alternation with known names replaced by their values and unknown names kept
verbatim, (3) the spec's example `\x7b\x7bA\x7d\x7d/\x7b\x7bB\x7d\x7d` with
only `A` bound. -/
theorem claim_C4 :
    (∀ (text : String) (vars : String → Option String),
      VariableSubstitutor.has_variables text = false →
      VariableSubstitutor.substitute text vars = text) ∧
    (∀ (vars : String → Option String) (pairs : List (List Char × List Char))
      (last : List Char),
      (∀ p ∈ pairs, (∀ c ∈ p.1, ¬ c = lbrace) ∧ validName p.2 = true) →
      (∀ c ∈ last, ¬ c = lbrace) →
      VariableSubstitutor.substitute (String.mk (joinSegs pairs last)) vars
        = String.mk (renderSegs vars pairs last)) ∧
    VariableSubstitutor.substitute "\x7b\x7bA\x7d\x7d/\x7b\x7bB\x7d\x7d"
      (fun k => if k = "A" then some "x" else none) = "x/\x7b\x7bB\x7d\x7d" := by
  refine ⟨?_, ?_, by decide⟩
  · intro text vars h
    obtain ⟨cs⟩ := text
    rw [substitute_eq_substL]
    exact congrArg String.mk (substL_id_of_no_token vars cs h)
  · intro vars pairs last hp hl
    rw [substitute_eq_substL]
    exact congrArg String.mk (substL_joinSegs vars pairs last hp hl)

/-- Witness for claim C4: the decomposition statement applied to the spec's
example `\x7b\x7bA\x7d\x7d/\x7b\x7bB\x7d\x7d` with `A` bound to `x`. -/
theorem claim_C4_witness :
    VariableSubstitutor.substitute
        (String.mk (joinSegs [([], ['A']), (['/'], ['B'])] []))
        (fun k => if k = "A" then some "x" else none)
      = String.mk (renderSegs (fun k => if k = "A" then some "x" else none)
        [([], ['A']), (['/'], ['B'])] []) :=
  claim_C4.2.1 (fun k => if k = "A" then some "x" else none)
    [([], ['A']), (['/'], ['B'])] [] (by decide) (by decide)

/-- The spec's example document `\x7b"user":\x7b"name":"Alice","id":42\x7d\x7d`. -/
def userJson : Json :=
  Json.obj [("user", Json.obj [("name", Json.str "Alice"), ("id", Json.num 42)])]

/-- Claim C5: the minimal JSON path extractor, shared verbatim by JSON-path
assertions and variable extraction.  For a path `$.f1.f2...` over dot-free
field names, the result is the empty string when traversal hits a missing key
or a non-object node, and otherwise the leaf rendered with strings as-is,
numbers in decimal, booleans as `true`/`false` and null as `"null"`; the
spec's three examples over `userJson` are instances. -/
theorem claim_C5 :
    (∀ (json : Json) (fields : List String), fields ≠ [] →
      (∀ f ∈ fields, ∀ c ∈ f.data, ¬ c = '.') →
      headDollarDot (joinDots fields) = false →
      ResponseValidator.extract_json_path json (String.mk ('$' :: '.' :: joinDots fields))
        = match Json.resolve fields json with
          | some leaf => leafRender leaf
          | none => "") ∧
    (∀ (json : Json) (path : String),
      WorkflowExecutor.extract_json_value json path
        = ResponseValidator.extract_json_path json path) ∧
    leafRender (Json.str "Alice") = "Alice" ∧
    leafRender (Json.num 42) = "42" ∧
    (∀ b, leafRender (Json.bool b) = cond b "true" "false") ∧
    leafRender Json.null = "null" ∧
    ResponseValidator.extract_json_path userJson "$.user.name" = "Alice" ∧
    ResponseValidator.extract_json_path userJson "$.user.id" = "42" ∧
    ResponseValidator.extract_json_path userJson "$.user.missing" = "" := by
  refine ⟨?_, fun _ _ => rfl, rfl, rfl, fun b => rfl, rfl, rfl, rfl, rfl⟩
  intro json fields hne hdots hhead
  have hparts : pathParts (String.mk ('$' :: '.' :: joinDots fields)) = fields := by
    show (splitDot (trimDollarDot ('$' :: '.' :: joinDots fields))).map String.mk = fields
    have h1 : trimDollarDot ('$' :: '.' :: joinDots fields) = trimDollarDot (joinDots fields) :=
      rfl
    rw [h1, trimDollarDot_eq_self hhead, splitDot_joinDots fields hne hdots,
      List.map_map]
    exact List.map_id fields
  rw [ResponseValidator.extract_json_path, hparts]
  exact extractGo_resolve fields json

/-- Witness for claim C5: the general statement applied to the example
document and the path `$.user.name`. -/
theorem claim_C5_witness :
    ResponseValidator.extract_json_path userJson
        (String.mk ('$' :: '.' :: joinDots ["user", "name"]))
      = match Json.resolve ["user", "name"] userJson with
        | some leaf => leafRender leaf
        | none => "" :=
  claim_C5.1 userJson ["user", "name"] (by decide) (by decide) (by decide)

/-- Counterexample for claim C7: the claim reads `HasLength` as comparing the
character count, but `Matcher::matches` compares `actual.len()`, the UTF-8
byte count.  The two-byte, one-character string `é` against expected length
`1` refutes the claimed equivalence: the character count is 1, `1` parses as
the unsigned integer 1, yet the matcher returns `false`. -/
theorem claim_C7_counterexample :
    Matcher.doesMatch (fun _ => none) ⟨MatcherType.HasLength, "1"⟩ "é" = false ∧
    "é".length = 1 ∧ rustParseUsize "1" = some 1 := by
  refine ⟨by decide, by decide, by decide⟩

/-- Claim C7 as amended: `HasLength` with an `expected` that parses as an
unsigned (`usize`) integer `n` matches exactly the strings whose UTF-8 byte
count (Rust's `str::len`) is `n`, and an `expected` that fails to parse
matches nothing. -/
theorem claim_C7 :
    (∀ (re : String → Option (String → Bool)) (exp : String) (n : Nat) (actual : String),
      rustParseUsize exp = some n →
      Matcher.doesMatch re ⟨MatcherType.HasLength, exp⟩ actual
        = (actual.utf8ByteSize == n)) ∧
    (∀ (re : String → Option (String → Bool)) (exp actual : String),
      rustParseUsize exp = none →
      Matcher.doesMatch re ⟨MatcherType.HasLength, exp⟩ actual = false) := by
  constructor
  · intro re exp n actual h
    rw [Matcher.doesMatch]
    rw [show (⟨MatcherType.HasLength, exp⟩ : Matcher).expected = exp from rfl, h]
  · intro re exp actual h
    rw [Matcher.doesMatch]
    rw [show (⟨MatcherType.HasLength, exp⟩ : Matcher).expected = exp from rfl, h]

/-- Witness for claim C7: the amended statement applied at expected `5` and
actual `hello`. -/
theorem claim_C7_witness :
    Matcher.doesMatch (fun _ => none) ⟨MatcherType.HasLength, "5"⟩ "hello"
      = ("hello".utf8ByteSize == 5) :=
  claim_C7.1 (fun _ => none) "5" 5 "hello" (by decide)

/-! Validation report lemmas. -/

/-- `add_result` always increments `total`. -/
theorem add_result_total (rep : ValidationReport) (r : AssertionResult) :
    (rep.add_result r).total = rep.total + 1 := by
  rw [ValidationReport.add_result]
  by_cases hr : r.passed
  · simp [hr]
  · have hr' : r.passed = false := by simpa using hr
    simp [hr']

/-- `add_result` on a passing result: `passed` up by one, `failed` and
`success` unchanged. -/
theorem add_result_pos (rep : ValidationReport) (r : AssertionResult) (h : r.passed = true) :
    (rep.add_result r).passed = rep.passed + 1 ∧ (rep.add_result r).failed = rep.failed ∧
    (rep.add_result r).success = rep.success := by
  rw [ValidationReport.add_result]
  simp [h]

/-- `add_result` on a failing result: `failed` up by one, `passed` unchanged,
`success` cleared. -/
theorem add_result_neg (rep : ValidationReport) (r : AssertionResult) (h : r.passed = false) :
    (rep.add_result r).passed = rep.passed ∧ (rep.add_result r).failed = rep.failed + 1 ∧
    (rep.add_result r).success = false := by
  rw [ValidationReport.add_result]
  simp [h]

/-- `add_result` preserves the counting invariants. -/
theorem add_result_inv (rep : ValidationReport) (r : AssertionResult)
    (h1 : rep.total = rep.passed + rep.failed)
    (h2 : rep.success = (rep.failed == 0)) :
    (rep.add_result r).total = (rep.add_result r).passed + (rep.add_result r).failed ∧
    (rep.add_result r).success = ((rep.add_result r).failed == 0) := by
  by_cases hr : r.passed
  · obtain ⟨hp, hf, hs⟩ := add_result_pos rep r hr
    rw [add_result_total, hp, hf, hs]
    exact ⟨by omega, h2⟩
  · have hr' : r.passed = false := by simpa using hr
    obtain ⟨hp, hf, hs⟩ := add_result_neg rep r hr'
    rw [add_result_total, hp, hf, hs]
    exact ⟨by omega, by simp⟩

/-- The validator's loop preserves the invariants and adds one to `total` for
each enabled assertion. -/
theorem validate_loop_inv (re : String → Option (String → Bool))
    (parse : String → Option Json) (response : HttpResponse) :
    ∀ (assertions : List Assertion) (rep : ValidationReport),
      rep.total = rep.passed + rep.failed → rep.success = (rep.failed == 0) →
      (ResponseValidator.validate_loop re parse response assertions rep).total
          = (ResponseValidator.validate_loop re parse response assertions rep).passed
            + (ResponseValidator.validate_loop re parse response assertions rep).failed ∧
      (ResponseValidator.validate_loop re parse response assertions rep).success
        = ((ResponseValidator.validate_loop re parse response assertions rep).failed == 0) ∧
      (ResponseValidator.validate_loop re parse response assertions rep).total
        = rep.total + (assertions.filter (fun a => a.enabled)).length := by
  intro assertions
  induction assertions with
  | nil =>
    intro rep h1 h2
    exact ⟨h1, h2, by simp [ResponseValidator.validate_loop]⟩
  | cons a rest ih =>
    intro rep h1 h2
    by_cases ha : a.enabled
    · have hcond : ¬ ((!a.enabled) = true) := by simp [ha]
      have hstep := add_result_inv rep
        (ResponseValidator.validate_assertion re parse response a) h1 h2
      have ihr := ih (rep.add_result (ResponseValidator.validate_assertion re parse response a))
        hstep.1 hstep.2
      rw [ResponseValidator.validate_loop, if_neg hcond]
      refine ⟨ihr.1, ihr.2.1, ?_⟩
      rw [ihr.2.2, add_result_total, List.filter_cons_of_pos (by simp [ha])]
      simp only [List.length_cons]
      omega
    · have hcond : (!a.enabled) = true := by simp [ha]
      have ihr := ih rep h1 h2
      rw [ResponseValidator.validate_loop, if_pos hcond]
      refine ⟨ihr.1, ihr.2.1, ?_⟩
      rw [ihr.2.2, List.filter_cons_of_neg (by simp [ha])]

/-- Claim C6: `validate` skips disabled assertions entirely; the report
satisfies `total = passed + failed` and `success` holds exactly when
`failed = 0`; with one enabled and one disabled assertion, `total = 1`. -/
theorem claim_C6 :
    (∀ (re : String → Option (String → Bool)) (parse : String → Option Json)
      (response : HttpResponse) (assertions : List Assertion),
      (ResponseValidator.validate re parse response assertions).total
          = (ResponseValidator.validate re parse response assertions).passed
            + (ResponseValidator.validate re parse response assertions).failed ∧
        (ResponseValidator.validate re parse response assertions).success
          = ((ResponseValidator.validate re parse response assertions).failed == 0) ∧
        (ResponseValidator.validate re parse response assertions).total
          = (assertions.filter (fun a => a.enabled)).length) ∧
    (ResponseValidator.validate (fun _ => none) (fun _ => none) ⟨200, [], "", 0⟩
        [Assertion.new AssertionType.StatusCode ⟨MatcherType.Equals, "200"⟩,
          (Assertion.new AssertionType.StatusCode ⟨MatcherType.Equals, "404"⟩).with_enabled
            false]).total = 1 := by
  refine ⟨?_, by decide⟩
  intro re parse response assertions
  have h := validate_loop_inv re parse response assertions ValidationReport.new rfl rfl
  refine ⟨h.1, h.2.1, ?_⟩
  simpa [ValidationReport.new] using h.2.2

/-! Executor loop invariants. -/

/-- The running invariants of an `ExecutionResult`: `success` is the
conjunction of the recorded steps' successes, and `total_duration` is the sum
of their durations. -/
def resInv (r : ExecutionResult) : Prop :=
  r.success = r.step_results.all (fun s => s.success) ∧
  r.total_duration = (r.step_results.map (fun s => s.duration)).sum

/-- `add_step_result` preserves both running invariants. -/
theorem add_step_result_inv (r : ExecutionResult) (sr : StepResult) (h : resInv r) :
    resInv (r.add_step_result sr) := by
  obtain ⟨h1, h2⟩ := h
  constructor
  · by_cases hs : sr.success
    · simp [ExecutionResult.add_step_result, hs, h1, List.all_append]
    · have hs' : sr.success = false := by simpa using hs
      simp [ExecutionResult.add_step_result, hs', List.all_append]
  · simp [ExecutionResult.add_step_result, h2]

/-- The step loop preserves both running invariants. -/
theorem stepLoop_inv (env : Env) (cfg : ChainConfig) :
    ∀ (steps : List WorkflowStep) (st : WorkflowExecutor.ExecSt),
      resInv st.res → resInv (WorkflowExecutor.stepLoop env cfg steps st).res := by
  intro steps
  induction steps with
  | nil => intro st h; exact h
  | cons step rest ih =>
    intro st h
    rw [WorkflowExecutor.stepLoop]
    rcases hex : WorkflowExecutor.execute_step env st.tick step st.ctx with ⟨e, ctx'⟩
    cases e with
    | ok sr =>
      dsimp only
      have hadd := add_step_result_inv st.res sr h
      by_cases hcond : (!sr.success && cfg.stop_on_failure && !step.continue_on_error) = true
      · rw [if_pos hcond]; exact hadd
      · rw [if_neg hcond]; exact ih _ hadd
    | error err =>
      dsimp only
      have hadd := add_step_result_inv st.res
        (StepResult.mk_failure step.name err (env.elapsed st.tick)) h
      by_cases hcond : (cfg.stop_on_failure && !step.continue_on_error) = true
      · rw [if_pos hcond]; exact hadd
      · rw [if_neg hcond]; exact ih _ hadd

/-- The iteration loop preserves both running invariants. -/
theorem iterLoop_inv (env : Env) (chain : RequestChain) :
    ∀ (k : Nat) (st : WorkflowExecutor.ExecSt),
      resInv st.res → resInv (WorkflowExecutor.iterLoop env chain k st).res := by
  intro k
  induction k with
  | zero => intro st h; exact h
  | succ k ih =>
    intro st h
    rw [WorkflowExecutor.iterLoop]
    have h1 := stepLoop_inv env chain.config chain.steps st h
    cases hmd : chain.config.max_duration with
    | some md =>
      dsimp only
      by_cases hge : (WorkflowExecutor.stepLoop env chain.config chain.steps st).res.total_duration
          ≥ md
      · rw [if_pos hge]; exact h1
      · rw [if_neg hge]; exact ih _ h1
    | none => exact ih _ h1

/-- Claim C2: for every execution, `success` is the AND-reduction of the
recorded step results' `success` flags (so it is false exactly when some
recorded step failed), and zero configured iterations produce an
`ExecutionResult` with no step results and `success = true`. -/
theorem claim_C2 :
    (∀ (env : Env) (chain : RequestChain),
      (WorkflowExecutor.execute env chain).success
        = (WorkflowExecutor.execute env chain).step_results.all (fun s => s.success)) ∧
    (∀ (env : Env) (chain : RequestChain), chain.config.iterations = 0 →
      (WorkflowExecutor.execute env chain).step_results = [] ∧
      (WorkflowExecutor.execute env chain).success = true) := by
  constructor
  · intro env chain
    exact (iterLoop_inv env chain chain.config.iterations
      ⟨ExecutionResult.new chain.name, ScriptContext.new, 0⟩ ⟨rfl, rfl⟩).1
  · intro env chain h0
    rw [WorkflowExecutor.execute, h0]
    exact ⟨rfl, rfl⟩

/-! Concrete fixtures used by the scenario statements. -/

/-- A deterministic environment: scripts are no-ops, every request gets a 404
response with empty body, nothing parses as JSON, and every step attempt takes
5 time units. -/
def envA : Env :=
  ⟨fun _ _ ctx => (ctx, none), fun _ _ => Except.ok ⟨404, [], "", 1000000⟩,
    fun _ => none, fun _ => none, fun _ => 5⟩

/-- A step asserting status 200 (which the 404 response refutes). -/
def step1 : WorkflowStep :=
  { WorkflowStep.new "step1" HttpMethod.Get "http://x" with
    assertions := [Assertion.new AssertionType.StatusCode ⟨MatcherType.Equals, "200"⟩] }

/-- A second, assertion-free step. -/
def step2 : WorkflowStep := WorkflowStep.new "step2" HttpMethod.Get "http://x"

/-- Scenario A: two steps, step 1 failing, `stop_on_failure`, no
`continue_on_error`. -/
def chainA : RequestChain := ⟨"chain", none, [step1, step2], ⟨true, none, none, 1⟩⟩

/-- Scenario B: as scenario A but step 1 has `continue_on_error = true`. -/
def chainB : RequestChain :=
  ⟨"chain", none, [{ step1 with continue_on_error := true }, step2], ⟨true, none, none, 1⟩⟩

/-- The failed step result scenario A records for step 1. -/
def failedSR1 : StepResult :=
  StepResult.mk_failure "step1" "Assertions failed: ✗ 1 of 1 assertions failed" 5

/-- Witness for claim C2: a zero-iteration chain yields no step results and
overall success. -/
theorem claim_C2_witness :
    (WorkflowExecutor.execute envA ⟨"empty", none, [step1], ⟨true, none, none, 0⟩⟩).step_results
        = [] ∧
      (WorkflowExecutor.execute envA ⟨"empty", none, [step1], ⟨true, none, none, 0⟩⟩).success
        = true :=
  claim_C2.2 envA ⟨"empty", none, [step1], ⟨true, none, none, 0⟩⟩ rfl

/-! Claim C1: stop-on-failure policy. -/

/-- Claim C1: when a step's result fails under `stop_on_failure = true` and
`continue_on_error = false`, the step loop records that result and stops (the
remaining steps are never executed, whatever they are); when the failing step
has `continue_on_error = true`, the loop records it and proceeds with the
remaining steps.  Both arms of the loop are covered: a step returning an
`Ok` result with `success = false` (assertion failure), and a step erroring
out (script or transport failure), which the loop records as a failure
result — one whose `success` is `false` — under the same policy.  Scenario A
(2-step chain, step 1 fails): exactly one `StepResult`, overall
`success = false`.  Scenario B (same with `continue_on_error`): two
`StepResult`s, overall `success = false`. -/
theorem claim_C1 :
    (∀ (env : Env) (cfg : ChainConfig) (step : WorkflowStep) (rest : List WorkflowStep)
      (st : WorkflowExecutor.ExecSt) (sr : StepResult),
      (WorkflowExecutor.execute_step env st.tick step st.ctx).1 = Except.ok sr →
      sr.success = false → cfg.stop_on_failure = true → step.continue_on_error = false →
      WorkflowExecutor.stepLoop env cfg (step :: rest) st
        = ⟨st.res.add_step_result sr, (WorkflowExecutor.execute_step env st.tick step st.ctx).2,
            st.tick + 1⟩) ∧
    (∀ (env : Env) (cfg : ChainConfig) (step : WorkflowStep) (rest : List WorkflowStep)
      (st : WorkflowExecutor.ExecSt) (sr : StepResult),
      (WorkflowExecutor.execute_step env st.tick step st.ctx).1 = Except.ok sr →
      step.continue_on_error = true →
      WorkflowExecutor.stepLoop env cfg (step :: rest) st
        = WorkflowExecutor.stepLoop env cfg rest
            ⟨st.res.add_step_result sr, (WorkflowExecutor.execute_step env st.tick step st.ctx).2,
              st.tick + 1⟩) ∧
    (∀ (env : Env) (cfg : ChainConfig) (step : WorkflowStep) (rest : List WorkflowStep)
      (st : WorkflowExecutor.ExecSt) (e : String),
      (WorkflowExecutor.execute_step env st.tick step st.ctx).1 = Except.error e →
      cfg.stop_on_failure = true → step.continue_on_error = false →
      WorkflowExecutor.stepLoop env cfg (step :: rest) st
        = ⟨st.res.add_step_result
              (StepResult.mk_failure step.name e (env.elapsed st.tick)),
            (WorkflowExecutor.execute_step env st.tick step st.ctx).2, st.tick + 1⟩) ∧
    (∀ (env : Env) (cfg : ChainConfig) (step : WorkflowStep) (rest : List WorkflowStep)
      (st : WorkflowExecutor.ExecSt) (e : String),
      (WorkflowExecutor.execute_step env st.tick step st.ctx).1 = Except.error e →
      step.continue_on_error = true →
      WorkflowExecutor.stepLoop env cfg (step :: rest) st
        = WorkflowExecutor.stepLoop env cfg rest
            ⟨st.res.add_step_result
                (StepResult.mk_failure step.name e (env.elapsed st.tick)),
              (WorkflowExecutor.execute_step env st.tick step st.ctx).2, st.tick + 1⟩) ∧
    (∀ (nm err : String) (d : Nat), (StepResult.mk_failure nm err d).success = false) ∧
    ((WorkflowExecutor.execute envA chainA).step_results.length = 1 ∧
      (WorkflowExecutor.execute envA chainA).success = false) ∧
    ((WorkflowExecutor.execute envA chainB).step_results.length = 2 ∧
      (WorkflowExecutor.execute envA chainB).success = false) := by
  refine ⟨?_, ?_, ?_, ?_, fun nm err d => rfl, ⟨rfl, rfl⟩, ⟨rfl, rfl⟩⟩
  · intro env cfg step rest st sr hex hfail hsof hcont
    rw [WorkflowExecutor.stepLoop]
    rcases hpair : WorkflowExecutor.execute_step env st.tick step st.ctx with ⟨e, ctx'⟩
    rw [hpair] at hex
    dsimp only at hex
    subst hex
    dsimp only
    rw [hfail, hsof, hcont]
    rfl
  · intro env cfg step rest st sr hex hcont
    rw [WorkflowExecutor.stepLoop]
    rcases hpair : WorkflowExecutor.execute_step env st.tick step st.ctx with ⟨e, ctx'⟩
    rw [hpair] at hex
    dsimp only at hex
    subst hex
    dsimp only
    rw [hcont]
    simp only [Bool.not_true, Bool.and_false, Bool.false_eq_true, if_false]
  · intro env cfg step rest st e hex hsof hcont
    rw [WorkflowExecutor.stepLoop]
    rcases hpair : WorkflowExecutor.execute_step env st.tick step st.ctx with ⟨e', ctx'⟩
    rw [hpair] at hex
    dsimp only at hex
    subst hex
    dsimp only
    rw [hsof, hcont]
    rfl
  · intro env cfg step rest st e hex hcont
    rw [WorkflowExecutor.stepLoop]
    rcases hpair : WorkflowExecutor.execute_step env st.tick step st.ctx with ⟨e', ctx'⟩
    rw [hpair] at hex
    dsimp only at hex
    subst hex
    dsimp only
    rw [hcont]
    simp only [Bool.not_true, Bool.and_false, Bool.false_eq_true, if_false]

/-- Witness for claim C1: the stop conjunct applied to scenario A's first
step, discharging the hypotheses by evaluation. -/
theorem claim_C1_witness :
    WorkflowExecutor.stepLoop envA chainA.config (step1 :: [step2])
        ⟨ExecutionResult.new "chain", ScriptContext.new, 0⟩
      = ⟨(ExecutionResult.new "chain").add_step_result failedSR1,
          (WorkflowExecutor.execute_step envA 0 step1 ScriptContext.new).2, 1⟩ :=
  claim_C1.1 envA chainA.config step1 [step2]
    ⟨ExecutionResult.new "chain", ScriptContext.new, 0⟩ failedSR1 rfl rfl rfl rfl

/-! Claim C9: durations. -/

/-- The step loop is insensitive to the configured inter-iteration delay. -/
theorem stepLoop_delay (env : Env) (sof : Bool) (d d' maxd : Option Nat) (iters : Nat) :
    ∀ (steps : List WorkflowStep) (st : WorkflowExecutor.ExecSt),
      WorkflowExecutor.stepLoop env ⟨sof, d, maxd, iters⟩ steps st
        = WorkflowExecutor.stepLoop env ⟨sof, d', maxd, iters⟩ steps st := by
  intro steps
  induction steps with
  | nil => intro st; rfl
  | cons step rest ih =>
    intro st
    rw [WorkflowExecutor.stepLoop, WorkflowExecutor.stepLoop]
    rcases hex : WorkflowExecutor.execute_step env st.tick step st.ctx with ⟨e, ctx'⟩
    cases e with
    | ok sr =>
      dsimp only
      by_cases hcond : (!sr.success && sof && !step.continue_on_error) = true
      · rw [if_pos hcond, if_pos hcond]
      · rw [if_neg hcond, if_neg hcond, ih]
    | error err =>
      dsimp only
      by_cases hcond : (sof && !step.continue_on_error) = true
      · rw [if_pos hcond, if_pos hcond]
      · rw [if_neg hcond, if_neg hcond, ih]

/-- The iteration loop is insensitive to the configured inter-iteration
delay: the sleep suspends without touching the accumulated state. -/
theorem iterLoop_delay (env : Env) (nm : String) (desc : Option String)
    (steps : List WorkflowStep) (sof : Bool) (d d' maxd : Option Nat) (iters : Nat) :
    ∀ (k : Nat) (st : WorkflowExecutor.ExecSt),
      WorkflowExecutor.iterLoop env ⟨nm, desc, steps, ⟨sof, d, maxd, iters⟩⟩ k st
        = WorkflowExecutor.iterLoop env ⟨nm, desc, steps, ⟨sof, d', maxd, iters⟩⟩ k st := by
  intro k
  induction k with
  | zero => intro st; rfl
  | succ k ih =>
    intro st
    rw [WorkflowExecutor.iterLoop, WorkflowExecutor.iterLoop]
    dsimp only
    rw [stepLoop_delay env sof d d' maxd iters steps st]
    cases maxd with
    | some md =>
      dsimp only
      by_cases hge : (WorkflowExecutor.stepLoop env ⟨sof, d', some md, iters⟩ steps
          st).res.total_duration ≥ md
      · rw [if_pos hge, if_pos hge]
      · rw [if_neg hge, if_neg hge]
        exact ih _
    | none => exact ih _

/-- Claim C9: `total_duration` is exactly the sum of the recorded step
results' durations, and the executor's outcome does not depend on
`delay_between_requests` at all — so time spent in inter-iteration delays is
never added to `total_duration` (and hence never counted against
`max_duration`). -/
theorem claim_C9 :
    (∀ (env : Env) (chain : RequestChain),
      (WorkflowExecutor.execute env chain).total_duration
        = ((WorkflowExecutor.execute env chain).step_results.map (fun s => s.duration)).sum) ∧
    (∀ (env : Env) (nm : String) (desc : Option String) (steps : List WorkflowStep)
      (sof : Bool) (d d' maxd : Option Nat) (iters : Nat),
      WorkflowExecutor.execute env ⟨nm, desc, steps, ⟨sof, d, maxd, iters⟩⟩
        = WorkflowExecutor.execute env ⟨nm, desc, steps, ⟨sof, d', maxd, iters⟩⟩) := by
  constructor
  · intro env chain
    exact (iterLoop_inv env chain chain.config.iterations
      ⟨ExecutionResult.new chain.name, ScriptContext.new, 0⟩ ⟨rfl, rfl⟩).2
  · intro env nm desc steps sof d d' maxd iters
    rw [WorkflowExecutor.execute, WorkflowExecutor.execute]
    rw [iterLoop_delay env nm desc steps sof d d' maxd iters]

/-! Claim C10: the response scratch space never leaks into the variable pool. -/

/-- A step with no scripts and no extraction rules leaves the context's
variable pool untouched, even though it writes the `status` and `body`
response scratch entries. -/
theorem execute_step_vars_frame (env : Env) (t : Nat) (step : WorkflowStep)
    (ctx : ScriptContext) (h1 : step.pre_request_script = none)
    (h2 : step.post_response_script = none) (h3 : step.extract_variables = []) :
    (WorkflowExecutor.execute_step env t step ctx).2.vars = ctx.vars := by
  simp only [WorkflowExecutor.execute_step, h1, h2]
  split
  · rfl
  · split
    · rw [WorkflowExecutor.finish_step, h3]
      rfl
    · simp only [validate_response]
      split
      · rfl
      · rw [WorkflowExecutor.finish_step, h3]
        rfl

/-- The step loop preserves the variable pool when no step has scripts or
extraction rules. -/
theorem stepLoop_vars_frame (env : Env) (cfg : ChainConfig) :
    ∀ (steps : List WorkflowStep) (st : WorkflowExecutor.ExecSt),
      (∀ step ∈ steps, step.pre_request_script = none ∧ step.post_response_script = none ∧
        step.extract_variables = []) →
      (WorkflowExecutor.stepLoop env cfg steps st).ctx.vars = st.ctx.vars := by
  intro steps
  induction steps with
  | nil => intro st _; rfl
  | cons step rest ih =>
    intro st h
    obtain ⟨hp, hq, hr⟩ := h step (by simp)
    have hframe := execute_step_vars_frame env st.tick step st.ctx hp hq hr
    rw [WorkflowExecutor.stepLoop]
    rcases hpair : WorkflowExecutor.execute_step env st.tick step st.ctx with ⟨e, ctx'⟩
    rw [hpair] at hframe
    dsimp only at hframe
    cases e with
    | ok sr =>
      dsimp only
      by_cases hcond : (!sr.success && cfg.stop_on_failure && !step.continue_on_error) = true
      · rw [if_pos hcond]
        exact hframe
      · rw [if_neg hcond, ih _ (fun s hs => h s (by simp [hs]))]
        exact hframe
    | error err =>
      dsimp only
      by_cases hcond : (cfg.stop_on_failure && !step.continue_on_error) = true
      · rw [if_pos hcond]
        exact hframe
      · rw [if_neg hcond, ih _ (fun s hs => h s (by simp [hs]))]
        exact hframe

/-- The iteration loop preserves the variable pool under the same
hypothesis. -/
theorem iterLoop_vars_frame (env : Env) (chain : RequestChain)
    (h : ∀ step ∈ chain.steps, step.pre_request_script = none ∧
      step.post_response_script = none ∧ step.extract_variables = []) :
    ∀ (k : Nat) (st : WorkflowExecutor.ExecSt),
      (WorkflowExecutor.iterLoop env chain k st).ctx.vars = st.ctx.vars := by
  intro k
  induction k with
  | zero => intro st; rfl
  | succ k ih =>
    intro st
    rw [WorkflowExecutor.iterLoop]
    have hstep := stepLoop_vars_frame env chain.config chain.steps st h
    cases hmd : chain.config.max_duration with
    | some md =>
      dsimp only
      by_cases hge : (WorkflowExecutor.stepLoop env chain.config chain.steps
          st).res.total_duration ≥ md
      · rw [if_pos hge]
        exact hstep
      · rw [if_neg hge, ih _]
        exact hstep
    | none =>
      rw [ih _]
      exact hstep

/-- Claim C10: writing the response scratch entries (`status`, `body`) never
touches the variable pool — the two maps are separate — and consequently an
execution whose steps have no scripts and no extraction rules ends with an
empty `final_variables`, even though every transport success wrote `status`
and `body` into the scratch map.  `final_variables` itself is defined as the
snapshot of the script context's variable pool. -/
theorem claim_C10 :
    (∀ (ctx : ScriptContext) (k v : String),
      (ctx.set_response_data k v).vars = ctx.vars) ∧
    (∀ (env : Env) (chain : RequestChain),
      (∀ step ∈ chain.steps, step.pre_request_script = none ∧
        step.post_response_script = none ∧ step.extract_variables = []) →
      ∀ (k : String), (WorkflowExecutor.execute env chain).final_variables k = none) := by
  constructor
  · intro ctx k v
    rfl
  · intro env chain h k
    show ((WorkflowExecutor.iterLoop env chain chain.config.iterations
        ⟨ExecutionResult.new chain.name, ScriptContext.new, 0⟩).ctx.vars k).map
        ScriptVariable.value = none
    rw [iterLoop_vars_frame env chain h]
    rfl

/-- Witness for claim C10: scenario B's chain has no scripts and no
extraction rules, and its execution indeed ends with no `status` variable in
`final_variables` (the scratch write did not leak). -/
theorem claim_C10_witness :
    (WorkflowExecutor.execute envA chainB).final_variables "status" = none :=
  claim_C10.2 envA chainB (by decide) "status"

/-! Claim C3: extraction failure handling. -/

/-- A step that declares one extraction pair and nothing else. -/
def stepC : WorkflowStep :=
  { WorkflowStep.new "extract" HttpMethod.Get "u" with
    extract_variables := [("token", "$.x")] }

/-- An environment whose transport returns a body that `serde_json` rejects
(`not json` is not valid JSON, so the parse oracle returns `none` on it). -/
def envC : Env :=
  ⟨fun _ _ ctx => (ctx, none), fun _ _ => Except.ok ⟨200, [], "not json", 0⟩,
    fun _ => none, fun _ => none, fun _ => 0⟩

/-- A one-step chain exercising extraction from an unparseable body. -/
def chainC : RequestChain := ⟨"c", none, [stepC], ⟨true, none, none, 1⟩⟩

/-- An environment whose transport returns the empty JSON object `\x7b\x7d`
(which parses, but holds no `x` field). -/
def envD : Env :=
  ⟨fun _ _ ctx => (ctx, none), fun _ _ => Except.ok ⟨200, [], "\x7b\x7d", 0⟩,
    fun s => if s == "\x7b\x7d" then some (Json.obj []) else none,
    fun _ => none, fun _ => 0⟩

/-- A one-step chain exercising extraction of a missing path. -/
def chainD : RequestChain := ⟨"d", none, [stepC], ⟨true, none, none, 1⟩⟩

/-- Counterexample for claim C3: a step that succeeds and declares the
extraction pair `(token, $.x)`, against a response body `serde_json` rejects.
The claim says the variable is written with the empty string; the executor's
`if let Ok(json)` has no `else` arm, so the pair is skipped and no `token`
variable exists after execution. -/
theorem claim_C3_counterexample :
    ((WorkflowExecutor.execute envC chainC).step_results.map (fun s => s.success)) = [true] ∧
    (WorkflowExecutor.execute envC chainC).final_variables "token" = none :=
  ⟨rfl, rfl⟩

/-- Claim C3 as amended: for a step that succeeded and declares
`(name, jsonPath)`, a missing path over a body that parses writes the empty
string into the pool under `name`, but a body that fails to parse skips the
pair entirely — no write occurs and no error is raised (the step result stays
successful). -/
theorem claim_C3 :
    (∀ (parse : String → Option Json) (body : String) (pairs : List (String × String))
      (ctx : ScriptContext) (ex : List (String × String)), parse body = none →
      WorkflowExecutor.extractLoop parse body pairs (ctx, ex) = (ctx, ex)) ∧
    (∀ (parse : String → Option Json) (body : String) (n p : String) (j : Json)
      (ctx : ScriptContext) (ex : List (String × String)), parse body = some j →
      (WorkflowExecutor.extractLoop parse body [(n, p)] (ctx, ex)).1.vars n
        = some (ScriptVariable.new (WorkflowExecutor.extract_json_value j p))) ∧
    (∀ (j : Json) (p : String), Json.resolve (pathParts p) j = none →
      WorkflowExecutor.extract_json_value j p = "") ∧
    ((WorkflowExecutor.execute envD chainD).final_variables "token" = some "" ∧
      ((WorkflowExecutor.execute envD chainD).step_results.map (fun s => s.success)) = [true]) := by
  refine ⟨?_, ?_, ?_, rfl, rfl⟩
  · intro parse body pairs
    induction pairs with
    | nil => intro ctx ex _; rfl
    | cons pair rest ih =>
      intro ctx ex h
      obtain ⟨n, p⟩ := pair
      rw [WorkflowExecutor.extractLoop, h]
      exact ih ctx ex h
  · intro parse body n p j ctx ex h
    rw [WorkflowExecutor.extractLoop, h]
    dsimp only [WorkflowExecutor.extractLoop]
    simp [ScriptContext.set_variable]
  · intro j p h
    rw [WorkflowExecutor.extract_json_value, extractGo_resolve, h]

/-- Witness for claim C3: the skip conjunct applied to a concrete unparseable
body and a single extraction pair. -/
theorem claim_C3_witness :
    WorkflowExecutor.extractLoop (fun _ => none) "nope" [("a", "$.a")]
        (ScriptContext.new, []) = (ScriptContext.new, []) :=
  claim_C3.1 (fun _ => none) "nope" [("a", "$.a")] ScriptContext.new [] rfl

/-! Claim C8: reading a persisted `ChainConfig`. -/

/-- Counterexample for claim C8: reading an empty JSON object is a
`missing field` error, not a `ChainConfig` with the stated defaults —
`stop_on_failure` and `iterations` carry no `#[serde(default)]`. -/
theorem claim_C8_counterexample :
    ChainConfig.deserialize (Json.obj []) = Except.error "missing field `stop_on_failure`" :=
  rfl

/-- Moving the required `iterations` decode past the literal field
dispatches. -/
theorem collectFields_three (b : Bool) (n : Json) (iters : Nat)
    (h : decodeU64 n = Except.ok iters) :
    ChainConfig.collectFields
        [("stop_on_failure", Json.bool b), ("iterations", n),
          ("some_future_field", Json.str "ignored")] (none, none, none, none)
      = Except.ok (some b, none, none, some iters) := by
  show (decodeU64 n).bind (fun m => ChainConfig.collectFields
      [("some_future_field", Json.str "ignored")] (some b, none, none, some m))
    = Except.ok (some b, none, none, some iters)
  rw [h]
  rfl

/-- Claim C8 as amended: on read, absence of the two optional duration fields
yields `None` and unknown fields are ignored, but `stop_on_failure` and
`iterations` are required — their absence is a read error, not a default; the
stated defaults are those of the in-code constructor `ChainConfig::new`. -/
theorem claim_C8 :
    (∀ (b : Bool) (n : Nat), n < 2 ^ 64 →
      ChainConfig.deserialize (Json.obj
          [("stop_on_failure", Json.bool b), ("iterations", Json.num (n : Int)),
            ("some_future_field", Json.str "ignored")])
        = Except.ok ⟨b, none, none, n⟩) ∧
    (∀ (b : Bool),
      ChainConfig.deserialize (Json.obj [("stop_on_failure", Json.bool b)])
        = Except.error "missing field `iterations`") ∧
    ChainConfig.new = ⟨true, none, none, 1⟩ := by
  refine ⟨?_, fun b => rfl, rfl⟩
  intro b n h
  have hd : decodeU64 (Json.num (n : Int)) = Except.ok n := by
    rw [decodeU64, if_pos ⟨Int.natCast_nonneg n, by exact_mod_cast h⟩,
      Int.toNat_natCast]
  rw [ChainConfig.deserialize, collectFields_three b (Json.num (n : Int)) n hd]
  rfl

/-- Witness for claim C8: the amended read statement at `stop_on_failure =
true`, `iterations = 1`, and one unknown field. -/
theorem claim_C8_witness :
    ChainConfig.deserialize (Json.obj
        [("stop_on_failure", Json.bool true), ("iterations", Json.num (1 : Int)),
          ("some_future_field", Json.str "ignored")])
      = Except.ok ⟨true, none, none, 1⟩ :=
  claim_C8.1 true 1 (by decide)
